import Mathlib

/-!
# Middleware chain of `middleware.go`

A shallow embedding of the five middleware of `src/middleware.go`
(`logHandler`, `recoverHandler`, `parseFormHandler`, `parseJsonBodyHandler`,
`staticHandler`) together with the properties of the specification that
concern them.

## Modelling conventions

* A Go `string` is a byte sequence; a model `String` holds one byte per
  character (ASCII text is itself).
* A handler is a total function from the `Context` it receives to an
  `Outcome`: the context as the handler leaves it (`*Context` is a pointer, so
  the callee may mutate it), the ordered list of side effects it performed, and
  the value it panicked with, if it did.
* The effects of a call `next(c)` are kept as ONE node `Effect.next arg inner`
  of the caller's effect list: `arg` is the context handed to `next`, `inner`
  the effects `next` performed.  The effect list of a middleware is therefore a
  call tree: its top-level entries other than `Effect.next` are the
  middleware's own actions, and each top-level `Effect.next` node is one
  invocation of `next`.
* Standard-library primitives whose results depend on the outside world or on
  large library code (`http.Dir.Open`, `File.Stat`, `path.Join`,
  `json.Decoder.Decode`) are parameters of the handlers that use them.
  `Request.ParseForm` and `url.ParseQuery` are modelled concretely.
-/

set_option autoImplicit false

namespace GolangWeb

/-! ## Data model -/

/-- Dynamic values stored in `Context.Params` (`interface{}`): the Go values
that `encoding/json` decodes into `interface{}`, a form value being a Go
string. -/
inductive Value where
  | null
  | bool (b : Bool)
  | number (q : ℚ)
  | string (s : String)
  | array (xs : List Value)
  | object (kvs : List (String × Value))

/-- A Go `map[string]V` that is not nil: a finite list of entries with pairwise
distinct keys. -/
structure GoMap (V : Type) where
  entries : List (String × V)
  nodup : (entries.map Prod.fst).Nodup

namespace GoMap

variable {V : Type}

/-- The empty map, `make(map[string]V)`. -/
def empty : GoMap V := ⟨[], List.nodup_nil⟩

/-- Lookup in a list of entries. -/
def getEntries (k : String) : List (String × V) → Option V
  | [] => none
  | (k', v) :: es => if k' = k then some v else getEntries k es

/-- Overwrite the entry of `k`, or add one at the end. -/
def setEntries (k : String) (v : V) : List (String × V) → List (String × V)
  | [] => [(k, v)]
  | (k', v') :: es => if k' = k then (k, v) :: es else (k', v') :: setEntries k v es

/-- The value `m[k]`, if present. -/
def get? (m : GoMap V) (k : String) : Option V := getEntries k m.entries

/-- The assignment `m[k] = v`. -/
def set (m : GoMap V) (k : String) (v : V) : GoMap V :=
  ⟨setEntries k v m.entries, by
    have keys : ∀ es : List (String × V), (setEntries k v es).map Prod.fst =
        if k ∈ es.map Prod.fst then es.map Prod.fst else es.map Prod.fst ++ [k] := by
      intro es
      induction es with
      | nil => simp [setEntries]
      | cons e es ih =>
        obtain ⟨k', v'⟩ := e
        by_cases h : k' = k
        · subst h; simp [setEntries]
        · have h' : ¬ k = k' := fun e => h e.symm
          simp only [setEntries, if_neg h, List.map_cons, ih, List.mem_cons, h', false_or]
          split <;> simp
    rw [keys]
    split
    · exact m.nodup
    · rename_i hk
      exact List.Nodup.append m.nodup (List.nodup_singleton k) (by
        intro a ha hb
        simp only [List.mem_singleton] at hb
        subst hb
        exact hk ha)⟩

/-- The builtin `len(m)`. -/
def len (m : GoMap V) : Nat := m.entries.length

end GoMap

/-- The type `url.Values`, `map[string][]string`. -/
abbrev Values := GoMap (List String)

/-- The builtin `len` on a possibly nil map. -/
def lenMap {V : Type} : Option (GoMap V) → Nat
  | none => 0
  | some m => m.len

/-- The entries visited by `for k, v := range m` on a possibly nil map. -/
def rangeMap {V : Type} : Option (GoMap V) → List (String × V)
  | none => []
  | some m => m.entries

/-- The parameter map `Context.Params`, a non-nil `map[string]interface{}`,
by its lookup function. -/
abbrev Params := String → Option Value

/-- The assignment `c.Params[k] = v`. -/
def Params.set (p : Params) (k : String) (v : Value) : Params :=
  fun k' => if k' = k then some v else p k'

/-- The fields of `url.URL` the middleware reads: `Path`, and the result of the
method `String()`. -/
structure URL where
  Path : String
  String : String

/-- The fields of `http.Request` the middleware reads or writes.  `mediaType`
is the media type of the `Content-Type` header as `mime.ParseMediaType` returns
it; `Body` is the unread remainder of the request body (a server request has a
non-nil body); `PostForm` is nil until `ParseForm` has run. -/
structure Request where
  Method : String
  URL : URL
  mediaType : String
  Body : String
  PostForm : Option Values

/-- The per-request `Context`: the request, the parameter map, and the wall
clock that `time.Now()` reads.  The response writer is represented by the
effects written to it. -/
structure Context where
  Request : Request
  Params : Params
  now : Int

/-- The value of a panic, as `recover()` returns it (`interface{}`): `nil` for
a `panic(nil)` in a module whose go directive is below 1.21 (from 1.21 on the
runtime delivers a non-nil `*runtime.PanicNilError` instead), and a non-nil
value otherwise. -/
inductive PanicValue where
  | nil
  | value (text : String)
  deriving DecidableEq

/-- Result of `fi.IsDir()` and `fi.ModTime()` of an `os.FileInfo`. -/
structure FileInfo where
  IsDir : Bool
  ModTime : Nat
  deriving DecidableEq

/-- An open `http.File`.  Every successful `Open` yields a handle of its own:
`seq` is the ordinal of the `Open` call of the handler activation that
produced it, `name` the name it was opened under, and `Stat` the result of
`f.Stat()` (`none` is an error). -/
structure File where
  seq : Nat
  name : String
  Stat : Option FileInfo
  deriving DecidableEq

/-- The file system behind `http.Dir(".")`: `Open name` is `none` when opening
fails, and otherwise the `Stat` result of the handle obtained. -/
structure Dir where
  Open : String → Option (Option FileInfo)

/-- Side effects, in the order performed. -/
inductive Effect where
  /-- Effect of `log.Printf("[%s] %q %v\n", method, url, elapsed)`. -/
  | logRequest (method url : String) (elapsed : Int)
  /-- Effect of `log.Printf("panic: %+v", err)`. -/
  | logPanic (err : PanicValue)
  /-- Effect of `fmt.Println(c.Request.PostForm)`. -/
  | println (postForm : Option Values)
  /-- Effect of `http.Error(c.ResponseWriter, error, code)`. -/
  | httpError (error : String) (code : Nat)
  /-- Effect of `http.Redirect(c.ResponseWriter, c.Request, url, code)`. -/
  | redirect (url : String) (code : Nat)
  /-- Effect of `http.ServeContent(c.ResponseWriter, c.Request, name, modtime, content)`. -/
  | serveContent (name : String) (modtime : Nat) (content : File)
  /-- Effect of `dir.Open(name)` with the handle obtained, `none` on error. -/
  | open (name : String) (result : Option File)
  /-- Effect of `f.Stat()`. -/
  | stat (f : File)
  /-- Effect of `f.Close()`. -/
  | close (f : File)
  /-- A direct write of a handler to `c.ResponseWriter` (`Write`, `WriteHeader`). -/
  | write (data : String)
  /-- Any other effect of a handler outside this file. -/
  | other (tag : String)
  /-- One call `next(arg)` together with the effects performed inside it. -/
  | next (arg : Context) (inner : List Effect)

/-- What one activation of a handler did. -/
structure Outcome where
  c : Context
  effects : List Effect
  panicked : Option PanicValue

/-- The type `HandlerFunc`, `func(c *Context)`. -/
abbrev HandlerFunc := Context → Outcome

/-- The type `Middleware`, `func(next HandlerFunc) HandlerFunc`. -/
abbrev Middleware := HandlerFunc → HandlerFunc

/-- The call `next(c)` seen from the caller. -/
def call (next : HandlerFunc) (c : Context) : Outcome :=
  ⟨(next c).c, [Effect.next c (next c).effects], (next c).panicked⟩

/-- Run `es` before `o`. -/
def Outcome.after (es : List Effect) (o : Outcome) : Outcome :=
  { o with effects := es ++ o.effects }

/-- Run `es` once `o` is over, as a deferred call does: also when `o` panicked. -/
def Outcome.defer (o : Outcome) (es : List Effect) : Outcome :=
  { o with effects := o.effects ++ es }

/-- Constant `http.StatusFound`. -/
def StatusFound : Nat := 302

/-- Constant `http.StatusInternalServerError`. -/
def StatusInternalServerError : Nat := 500

/-- Function `http.StatusText`, on the codes this file uses. -/
def StatusText (code : Nat) : String :=
  if code = 302 then "Found"
  else if code = 404 then "Not Found"
  else if code = 500 then "Internal Server Error"
  else ""

/-! ## logHandler and recoverHandler -/

/-- Source `logHandler`: take the time, call `next`, then log method, URL and
elapsed time.  A panic of `next` propagates past the `log.Printf`. -/
def logHandler : Middleware := fun next c =>
  let t := c.now
  let r := call next c
  match r.panicked with
  | some _ => r
  | none =>
    { r with effects := r.effects ++
        [Effect.logRequest r.c.Request.Method r.c.Request.URL.String (r.c.now - t)] }

/-- The builtin `recover()` in a deferred function: the value of the panic in
progress, and `nil` when there is none. -/
def recovered : Option PanicValue → PanicValue
  | none => PanicValue.nil
  | some v => v

/-- Source `recoverHandler`: call `next`; the deferred function calls
`recover()`, which ends a panic in progress, and when the value `err` it
returns is not nil it logs `err` and answers 500. -/
def recoverHandler : Middleware := fun next c =>
  let r := call next c
  let err := recovered r.panicked
  if err ≠ PanicValue.nil then
    ⟨r.c, r.effects ++ [Effect.logPanic err,
        Effect.httpError (StatusText StatusInternalServerError) StatusInternalServerError], none⟩
  else ⟨r.c, r.effects, none⟩

/-! ## Request.ParseForm and parseFormHandler -/

/-- Function `ishex` of `net/url`. -/
def ishex (c : Char) : Bool :=
  ('0' ≤ c && c ≤ '9') || ('a' ≤ c && c ≤ 'f') || ('A' ≤ c && c ≤ 'F')

/-- Function `unhex` of `net/url`. -/
def unhex (c : Char) : Nat :=
  if '0' ≤ c && c ≤ '9' then c.toNat - '0'.toNat
  else if 'a' ≤ c && c ≤ 'f' then c.toNat - 'a'.toNat + 10
  else if 'A' ≤ c && c ≤ 'F' then c.toNat - 'A'.toNat + 10
  else 0

/-- Function `url.QueryUnescape`: `%XY` becomes the byte `XY`, `+` a space;
`none` is the `EscapeError` of a `%` not followed by two hex digits. -/
def QueryUnescape : List Char → Option (List Char)
  | [] => some []
  | '%' :: a :: b :: rest =>
    if ishex a && ishex b then
      (QueryUnescape rest).map (fun t => Char.ofNat (unhex a * 16 + unhex b) :: t)
    else none
  | '%' :: _ => none
  | '+' :: rest => (QueryUnescape rest).map (fun t => ' ' :: t)
  | ch :: rest => (QueryUnescape rest).map (fun t => ch :: t)

/-- Function `strings.Cut(s, sep)` for a one-byte separator: the text before
the first `sep` and the text after it (all of `s` and nothing when there is
none). -/
def Cut (sep : Char) : List Char → List Char × List Char
  | [] => ([], [])
  | ch :: rest => if ch = sep then ([], rest) else ((Cut sep rest).1.cons ch, (Cut sep rest).2)

/-- The successive values of `key` in the loop
`for query != "" { key, query, _ = strings.Cut(query, "&"); ... }`, followed by
at most one empty piece (which the loop body skips like every empty key). -/
def pieces : List Char → List (List Char)
  | [] => [[]]
  | ch :: rest =>
    if ch = '&' then [] :: pieces rest
    else match pieces rest with
      | [] => [[ch]]
      | p :: ps => (ch :: p) :: ps

/-- One iteration of the loop of `url.parseQuery` on the piece `key`; the
boolean is `err != nil`. -/
def parseQueryStep (acc : Values × Bool) (key : List Char) : Values × Bool :=
  if ';' ∈ key then (acc.1, true)
  else if key = [] then acc
  else
    match QueryUnescape (Cut '=' key).1 with
    | none => (acc.1, true)
    | some k =>
      match QueryUnescape (Cut '=' key).2 with
      | none => (acc.1, true)
      | some v =>
        (acc.1.set (String.mk k) (((acc.1.get? (String.mk k)).getD []) ++ [String.mk v]), acc.2)

/-- Function `url.ParseQuery`: the values parsed (also those parsed before and
after a malformed pair) and whether an error is reported. -/
def ParseQuery (query : List Char) : Values × Bool :=
  (pieces query).foldl parseQueryStep (GoMap.empty, false)

/-- The limit `int64(10 << 20)` of `parsePostForm`. -/
def maxFormSize : Nat := 10485760

/-- Function `parsePostForm` of `net/http` for a body that is not wrapped in
`http.MaxBytesReader`: the request with the body read, and the values (nil
unless the media type is `application/x-www-form-urlencoded` and the body is
within the limit). -/
def parsePostForm (r : Request) : Request × Option Values :=
  if r.mediaType = "application/x-www-form-urlencoded" then
    let b := r.Body.toList.take (maxFormSize + 1)
    let r1 : Request := { r with Body := String.mk (r.Body.toList.drop (maxFormSize + 1)) }
    if maxFormSize < b.length then (r1, none)
    else (r1, some (ParseQuery b).1)
  else (r, none)

/-- Method `(*http.Request).ParseForm`, as far as `PostForm` and `Body` go: the
error it returns (which `parseFormHandler` discards) and the field `Form`
(which `middleware.go` never reads) are left out. -/
def Request.ParseForm (r : Request) : Request :=
  match r.PostForm with
  | some _ => r
  | none =>
    if r.Method = "POST" ∨ r.Method = "PUT" ∨ r.Method = "PATCH" then
      { (parsePostForm r).1 with PostForm := some ((parsePostForm r).2.getD GoMap.empty) }
    else { r with PostForm := some GoMap.empty }

/-- The body of the loop of `parseFormHandler`:
`if len(v) > 0 { c.Params[k] = v[0] }`. -/
def storeFirst (c : Context) (kv : String × List String) : Context :=
  if h : 0 < kv.2.length then
    { c with Params := c.Params.set kv.1 (Value.string (kv.2.get ⟨0, h⟩)) }
  else c

/-- Source `parseFormHandler`: parse the form, print `PostForm`, store the
first value of every field in `Params`, call `next`. -/
def parseFormHandler : Middleware := fun next c =>
  let c1 : Context := { c with Request := c.Request.ParseForm }
  let c2 : Context := (rangeMap c1.Request.PostForm).foldl storeFirst c1
  (call next c2).after [Effect.println c1.Request.PostForm]

/-! ## parseJsonBodyHandler -/

/-- What `json.NewDecoder(c.Request.Body).Decode(&m)` leaves behind: the
variable `m` (`none` while it is still nil) and the unread rest of the body.
The error it returns is discarded by the caller. -/
structure Decoded where
  m : Option (GoMap Value)
  rest : String

/-- The body of the loop of `parseJsonBodyHandler`: `c.Params[k] = v`. -/
def storeEntry (c : Context) (kv : String × Value) : Context :=
  { c with Params := c.Params.set kv.1 kv.2 }

/-- Source `parseJsonBodyHandler`, over the decoder `Decode`: decode the body
into `m`; when `len(m) > 0` copy every entry into `Params`; call `next`. -/
def parseJsonBodyHandler (Decode : String → Decoded) : Middleware :=
  fun next c =>
    let d := Decode c.Request.Body
    let c1 : Context := { c with Request := { c.Request with Body := d.rest } }
    let c2 : Context :=
      if 0 < lenMap d.m then (rangeMap d.m).foldl storeEntry c1 else c1
    call next c2

/-! ## staticHandler -/

/-- Function `strings.HasSuffix`. -/
def HasSuffix (s suffix : String) : Bool := suffix.toList.isSuffixOf s.toList

/-- The variable `indexFile` of `staticHandler`. -/
def indexFile : String := "index.html"

/-- Source `staticHandler`, over the file system `dir` behind `http.Dir(".")`
and the function `Join` standing for `path.Join`.  A `defer f.Close()` binds
the handle `f` holds when the `defer` statement runs, and is run when the
handler returns. -/
def staticHandler (dir : Dir) (Join : String → String → String) : Middleware :=
  fun next c =>
  if c.Request.Method ≠ "GET" ∧ c.Request.Method ≠ "HEAD" then
    call next c
  else
    let file := c.Request.URL.Path
    match dir.Open file with
    | none => (call next c).after [Effect.open file none]
    | some st =>
      let f : File := ⟨0, file, st⟩
      Outcome.defer (Outcome.after [Effect.open file (some f), Effect.stat f]
        (match f.Stat with
          | none => call next c
          | some fi =>
            if fi.IsDir then
              if ¬ HasSuffix c.Request.URL.Path "/" then
                ⟨c, [Effect.redirect (c.Request.URL.Path ++ "/") StatusFound], none⟩
              else
                let file := Join file indexFile
                match dir.Open file with
                | none => (call next c).after [Effect.open file none]
                | some st2 =>
                  let f2 : File := ⟨1, file, st2⟩
                  Outcome.defer (Outcome.after [Effect.open file (some f2), Effect.stat f2]
                    (match f2.Stat with
                      | none => call next c
                      | some fi2 =>
                        if fi2.IsDir then call next c
                        else ⟨c, [Effect.serveContent file fi2.ModTime f2], none⟩))
                    [Effect.close f2]
            else ⟨c, [Effect.serveContent file fi.ModTime f], none⟩))
        [Effect.close f]

/-! ## Observations on effect lists -/

/-- Number of invocations of `next` recorded at the top level of an effect
list. -/
def nextCalls : List Effect → Nat
  | [] => 0
  | Effect.next _ _ :: es => nextCalls es + 1
  | _ :: es => nextCalls es

/-- Whether an effect writes to the response. -/
def Effect.isResponseWrite : Effect → Bool
  | Effect.httpError _ _ => true
  | Effect.redirect _ _ => true
  | Effect.serveContent _ _ _ => true
  | Effect.write _ => true
  | _ => false

/-- Whether an effect is a file-system operation (`Open`, `Stat`, `Close`). -/
def Effect.isFileOp : Effect → Bool
  | Effect.open _ _ => true
  | Effect.stat _ => true
  | Effect.close _ => true
  | _ => false

/-- The handles obtained by the `Open` calls of an effect list, in order. -/
def opened : List Effect → List File
  | [] => []
  | Effect.open _ (some f) :: es => f :: opened es
  | _ :: es => opened es

/-- The handles closed by the `Close` calls of an effect list, in order. -/
def closed : List Effect → List File
  | [] => []
  | Effect.close f :: es => f :: closed es
  | _ :: es => closed es

/-- The names passed to the `Open` calls of an effect list, in order. -/
def openAttempts : List Effect → List String
  | [] => []
  | Effect.open name _ :: es => name :: openAttempts es
  | _ :: es => openAttempts es

mutual
/-- The primitive actions behind one effect, in order: a call node stands for
what happened inside the call. -/
def flattenEffect : Effect → List Effect
  | Effect.next _ inner => flatten inner
  | e => [e]
/-- The primitive actions behind an effect list, in order, calls unfolded. -/
def flatten : List Effect → List Effect
  | [] => []
  | e :: es => flattenEffect e ++ flatten es
end

/-- Every write to the response behind an effect list, in order, those of the
calls it records included. -/
def responseWrites (es : List Effect) : List Effect :=
  (flatten es).filter Effect.isResponseWrite

/-! ## Auxiliary definitions for the statements -/

/-- The effects of the recovery of `recoverHandler` after a call that ended
with `p`: the panic log and the 500 answer when it panicked with a value that
is not nil, nothing otherwise. -/
def recovery : Option PanicValue → List Effect
  | some (PanicValue.value text) =>
    [Effect.logPanic (PanicValue.value text), Effect.httpError "Internal Server Error" 500]
  | some PanicValue.nil => []
  | none => []

/-- The handles still held after the effect list, starting with the handles
`held`; `none` when the list closes a handle that is not held at that point
(never opened, or closed before). -/
def heldAfter : List File → List Effect → Option (List File)
  | held, [] => some held
  | held, Effect.open _ (some f) :: es => heldAfter (f :: held) es
  | held, Effect.close f :: es => if f ∈ held then heldAfter (held.erase f) es else none
  | held, _ :: es => heldAfter held es

/-- The lookup `m[k]`, with presence, on a possibly nil map. -/
def lookupMap {V : Type} (m : Option (GoMap V)) (k : String) : Option V :=
  GoMap.getEntries k (rangeMap m)

/-- The value a loop body stores for an entry, if it stores one. -/
def firstValue (vs : List String) : Option Value :=
  match vs with
  | [] => none
  | v :: _ => some (Value.string v)

/-- The context `parseFormHandler` hands to `next`. -/
def formContext (c : Context) : Context :=
  (rangeMap c.Request.ParseForm.PostForm).foldl storeFirst
    { c with Request := c.Request.ParseForm }

/-- The context `parseJsonBodyHandler` hands to `next`. -/
def jsonContext (Decode : String → Decoded) (c : Context) : Context :=
  if 0 < lenMap (Decode c.Request.Body).m then
    (rangeMap (Decode c.Request.Body).m).foldl storeEntry
      { c with Request := { c.Request with Body := (Decode c.Request.Body).rest } }
  else { c with Request := { c.Request with Body := (Decode c.Request.Body).rest } }

/-! ## Example inputs -/

/-- A handler that does nothing and returns. -/
def noop : HandlerFunc := fun c => ⟨c, [], none⟩

/-- A handler that panics with `v` at once. -/
def panicking (v : PanicValue) : HandlerFunc := fun c => ⟨c, [], some v⟩

/-- A context for a request `method path` with the given media type and body,
empty `Params` and the clock at 0. -/
def mkContext (method path mediaType body : String) : Context :=
  ⟨⟨method, ⟨path, path⟩, mediaType, body, none⟩, fun _ => none, 0⟩

/-- A file system with a directory `/assets` that holds `index.html`, a
directory `/empty` without index file, and a file `/style.css`. -/
def exampleDir : Dir :=
  ⟨fun name =>
    if name = "/assets" ∨ name = "/assets/" then some (some ⟨true, 7⟩)
    else if name = "/assets/index.html" then some (some ⟨false, 42⟩)
    else if name = "/empty" ∨ name = "/empty/" then some (some ⟨true, 9⟩)
    else if name = "/style.css" then some (some ⟨false, 5⟩)
    else none⟩

/-- What `path.Join` returns for a clean directory path ending in "/" and a
plain file name. -/
def joinName (d name : String) : String := d ++ name

/-- The form request of the specification: a POST with the URL-encoded body
`a=1&a=2&b=`. -/
def formExample : Context :=
  mkContext "POST" "/form" "application/x-www-form-urlencoded" "a=1&a=2&b="

/-- A request whose form body has a malformed pair (`%zz`). -/
def brokenFormExample : Context :=
  mkContext "POST" "/form" "application/x-www-form-urlencoded" "a=%zz&b=2"

/-- A table standing for `Decode` on three bodies: the object with `x` and `y`
of the specification, the empty object, and anything else taken as a body that
fails to decode (leaving `m` nil). -/
def exampleDecode : String → Decoded := fun body =>
  if body = "\x7b\"x\": 1, \"y\": \"s\"\x7d" then
    ⟨some ⟨[("x", Value.number 1), ("y", Value.string "s")], by decide⟩, ""⟩
  else if body = "\x7b\x7d" then ⟨some GoMap.empty, ""⟩
  else ⟨none, ""⟩

/-! ## Lemmas -/

theorem getEntries_eq_none {V : Type} (k : String) (es : List (String × V))
    (h : k ∉ es.map Prod.fst) : GoMap.getEntries k es = none := by
  induction es with
  | nil => rfl
  | cons e es ih =>
    obtain ⟨k', v'⟩ := e
    simp only [List.map_cons, List.mem_cons, not_or] at h
    have hne : ¬ k' = k := fun e => h.1 e.symm
    simp [GoMap.getEntries, hne, ih h.2]

/-- A loop `for k, v := range m` whose body stores `upd v` under `k` (or
nothing) leaves the request and the clock alone and makes `Params` the old map
overwritten by the stored values. -/
theorem foldl_store {V : Type} (upd : V → Option Value)
    (step : Context → String × V → Context)
    (hstep : ∀ c kv, step c kv =
      match upd kv.2 with
      | some v => { c with Params := c.Params.set kv.1 v }
      | none => c)
    (es : List (String × V)) (hnd : (es.map Prod.fst).Nodup) (c : Context) :
    (es.foldl step c).Request = c.Request ∧ (es.foldl step c).now = c.now ∧
    ∀ k, (es.foldl step c).Params k =
      match (GoMap.getEntries k es).bind upd with
      | some v => some v
      | none => c.Params k := by
  induction es generalizing c with
  | nil => simp [GoMap.getEntries]
  | cons e es ih =>
    obtain ⟨k', v'⟩ := e
    simp only [List.map_cons, List.nodup_cons] at hnd
    obtain ⟨h1, h2, h3⟩ := ih hnd.2 (step c (k', v'))
    simp only [List.foldl_cons]
    refine ⟨?_, ?_, ?_⟩
    · rw [h1, hstep]; dsimp only; split <;> rfl
    · rw [h2, hstep]; dsimp only; split <;> rfl
    · intro k
      rw [h3 k]
      by_cases hk : k' = k
      · subst hk
        simp only [getEntries_eq_none k' es hnd.1, GoMap.getEntries, if_true, Option.bind]
        rw [hstep]
        dsimp only
        cases upd v' <;> simp [Params.set]
      · simp only [GoMap.getEntries, if_neg hk]
        have hstepk : (step c (k', v')).Params k = c.Params k := by
          rw [hstep]
          dsimp only
          have hk' : ¬ k = k' := fun e => hk e.symm
          split <;> simp [Params.set, hk']
        rw [hstepk]

theorem storeFirst_eq (c : Context) (kv : String × List String) :
    storeFirst c kv =
      match firstValue kv.2 with
      | some v => { c with Params := c.Params.set kv.1 v }
      | none => c := by
  obtain ⟨k, vs⟩ := kv
  cases vs with
  | nil => simp [storeFirst, firstValue]
  | cons v vs => simp [storeFirst, firstValue]

theorem rangeMap_nodup {V : Type} (m : Option (GoMap V)) :
    ((rangeMap m).map Prod.fst).Nodup := by
  cases m with
  | none => simp [rangeMap]
  | some m => exact m.nodup

theorem parseFormHandler_eq (next : HandlerFunc) (c : Context) :
    parseFormHandler next c =
      ⟨(next (formContext c)).c,
       [Effect.println c.Request.ParseForm.PostForm,
        Effect.next (formContext c) (next (formContext c)).effects],
       (next (formContext c)).panicked⟩ := rfl

theorem formContext_params (c : Context) (k : String) :
    (formContext c).Params k =
      match (lookupMap c.Request.ParseForm.PostForm k).bind firstValue with
      | some v => some v
      | none => c.Params k :=
  (foldl_store firstValue storeFirst storeFirst_eq
    (rangeMap c.Request.ParseForm.PostForm) (rangeMap_nodup _)
    { c with Request := c.Request.ParseForm }).2.2 k

theorem formContext_request (c : Context) :
    (formContext c).Request = c.Request.ParseForm :=
  (foldl_store firstValue storeFirst storeFirst_eq
    (rangeMap c.Request.ParseForm.PostForm) (rangeMap_nodup _)
    { c with Request := c.Request.ParseForm }).1

theorem parseJsonBodyHandler_eq (Decode : String → Decoded) (next : HandlerFunc)
    (c : Context) :
    parseJsonBodyHandler Decode next c =
      ⟨(next (jsonContext Decode c)).c,
       [Effect.next (jsonContext Decode c) (next (jsonContext Decode c)).effects],
       (next (jsonContext Decode c)).panicked⟩ := rfl

/-! ## Static files: C1, C2, C3, C9 -/

/-- C1: `staticHandler` falls through when (a) the method is neither GET nor
HEAD, or (b) the method is GET or HEAD and the URL path fails to open, or its
`Stat` fails, or it is a directory with a path ending in "/" whose index file
(`Join path "index.html"`) fails to open, fails to `Stat`, or is a directory.
Then the handler ends as `next` ended on the context it received, it invoked
`next` exactly once, on that same context, everything else it did is a
file-system operation (so no write to the response), and in case (a) it did
nothing else at all (no `Open`). -/
theorem staticHandler_falls_through (dir : Dir) (Join : String → String → String)
    (next : HandlerFunc) (c : Context)
    (hfall :
      (c.Request.Method ≠ "GET" ∧ c.Request.Method ≠ "HEAD") ∨
      ((c.Request.Method = "GET" ∨ c.Request.Method = "HEAD") ∧
        (dir.Open c.Request.URL.Path = none ∨
         dir.Open c.Request.URL.Path = some none ∨
         ∃ fi, dir.Open c.Request.URL.Path = some (some fi) ∧ fi.IsDir = true ∧
           HasSuffix c.Request.URL.Path "/" = true ∧
           (dir.Open (Join c.Request.URL.Path indexFile) = none ∨
            dir.Open (Join c.Request.URL.Path indexFile) = some none ∨
            ∃ fi2, dir.Open (Join c.Request.URL.Path indexFile) = some (some fi2) ∧
              fi2.IsDir = true)))) :
    (staticHandler dir Join next c).c = (next c).c ∧
    (staticHandler dir Join next c).panicked = (next c).panicked ∧
    nextCalls (staticHandler dir Join next c).effects = 1 ∧
    (∀ e ∈ (staticHandler dir Join next c).effects, e.isResponseWrite = false) ∧
    (∃ before after,
      (staticHandler dir Join next c).effects =
        before ++ [Effect.next c (next c).effects] ++ after ∧
      (∀ e ∈ before ++ after, e.isFileOp = true)) ∧
    (c.Request.Method ≠ "GET" ∧ c.Request.Method ≠ "HEAD" →
      (staticHandler dir Join next c).effects = [Effect.next c (next c).effects] ∧
      openAttempts (staticHandler dir Join next c).effects = []) := by
  rcases hfall with hm | ⟨hm, hres⟩
  · refine ⟨?_, ?_, ?_, ?_, ⟨[], [], ?_, ?_⟩, ?_⟩ <;>
      simp [staticHandler, hm, call, nextCalls, Effect.isResponseWrite, openAttempts]
  · have hnot : ¬ (c.Request.Method ≠ "GET" ∧ c.Request.Method ≠ "HEAD") := by
      rcases hm with h | h <;> simp [h]
    rcases hres with h1 | h1 | ⟨fi, h1, hdir, hsuf, h2 | h2 | ⟨fi2, h2, hdir2⟩⟩
    · refine ⟨?_, ?_, ?_, ?_, ⟨[Effect.open c.Request.URL.Path none], [], ?_, ?_⟩, ?_⟩ <;>
        simp [staticHandler, hnot, h1, call, Outcome.after, nextCalls,
          Effect.isResponseWrite, Effect.isFileOp]
    · refine ⟨?_, ?_, ?_, ?_,
        ⟨[Effect.open c.Request.URL.Path (some ⟨0, c.Request.URL.Path, none⟩),
          Effect.stat ⟨0, c.Request.URL.Path, none⟩],
         [Effect.close ⟨0, c.Request.URL.Path, none⟩], ?_, ?_⟩, ?_⟩ <;>
        simp [staticHandler, hnot, h1, call, Outcome.after, Outcome.defer, nextCalls,
          Effect.isResponseWrite, Effect.isFileOp]
    · refine ⟨?_, ?_, ?_, ?_,
        ⟨[Effect.open c.Request.URL.Path (some ⟨0, c.Request.URL.Path, some fi⟩),
          Effect.stat ⟨0, c.Request.URL.Path, some fi⟩,
          Effect.open (Join c.Request.URL.Path indexFile) none],
         [Effect.close ⟨0, c.Request.URL.Path, some fi⟩], ?_, ?_⟩, ?_⟩ <;>
        simp [staticHandler, hnot, h1, h2, hdir, hsuf, call, Outcome.after, Outcome.defer,
          nextCalls, Effect.isResponseWrite, Effect.isFileOp]
    · refine ⟨?_, ?_, ?_, ?_,
        ⟨[Effect.open c.Request.URL.Path (some ⟨0, c.Request.URL.Path, some fi⟩),
          Effect.stat ⟨0, c.Request.URL.Path, some fi⟩,
          Effect.open (Join c.Request.URL.Path indexFile)
            (some ⟨1, Join c.Request.URL.Path indexFile, none⟩),
          Effect.stat ⟨1, Join c.Request.URL.Path indexFile, none⟩],
         [Effect.close ⟨1, Join c.Request.URL.Path indexFile, none⟩,
          Effect.close ⟨0, c.Request.URL.Path, some fi⟩], ?_, ?_⟩, ?_⟩ <;>
        simp [staticHandler, hnot, h1, h2, hdir, hsuf, call, Outcome.after, Outcome.defer,
          nextCalls, Effect.isResponseWrite, Effect.isFileOp]
    · refine ⟨?_, ?_, ?_, ?_,
        ⟨[Effect.open c.Request.URL.Path (some ⟨0, c.Request.URL.Path, some fi⟩),
          Effect.stat ⟨0, c.Request.URL.Path, some fi⟩,
          Effect.open (Join c.Request.URL.Path indexFile)
            (some ⟨1, Join c.Request.URL.Path indexFile, some fi2⟩),
          Effect.stat ⟨1, Join c.Request.URL.Path indexFile, some fi2⟩],
         [Effect.close ⟨1, Join c.Request.URL.Path indexFile, some fi2⟩,
          Effect.close ⟨0, c.Request.URL.Path, some fi⟩], ?_, ?_⟩, ?_⟩ <;>
        simp [staticHandler, hnot, h1, h2, hdir, hdir2, hsuf, call, Outcome.after,
          Outcome.defer, nextCalls, Effect.isResponseWrite, Effect.isFileOp]

/-- Witness of C1: a POST to the path of a real file goes to `next`, once,
without any `Open`. -/
theorem staticHandler_falls_through_witness :
    (exampleDir.Open "/style.css").isSome = true ∧
    (staticHandler exampleDir joinName noop (mkContext "POST" "/style.css" "" "")).effects =
      [Effect.next (mkContext "POST" "/style.css" "" "")
        (noop (mkContext "POST" "/style.css" "" "")).effects] ∧
    openAttempts
      (staticHandler exampleDir joinName noop (mkContext "POST" "/style.css" "" "")).effects
      = [] :=
  ⟨by decide,
    (staticHandler_falls_through exampleDir joinName noop (mkContext "POST" "/style.css" "" "")
      (Or.inl ⟨by decide, by decide⟩)).2.2.2.2.2 ⟨by decide, by decide⟩⟩

/-- C2: for a GET or HEAD request, when the URL path opens and stats as a
non-directory, `staticHandler` opens it, calls `http.ServeContent` once with the
URL path, the modification time and the handle of that file, closes the handle,
and never invokes `next`; when the URL path is a directory, ends in "/", and
the index file opens and stats as a non-directory, it calls `http.ServeContent`
once with the name, the modification time and the handle of the index file (not
those of the directory), closes both handles, and never invokes `next`. -/
theorem staticHandler_serves_file (dir : Dir) (Join : String → String → String)
    (next : HandlerFunc) (c : Context)
    (hm : c.Request.Method = "GET" ∨ c.Request.Method = "HEAD") :
    (∀ fi, dir.Open c.Request.URL.Path = some (some fi) → fi.IsDir = false →
      staticHandler dir Join next c =
        ⟨c, [Effect.open c.Request.URL.Path (some ⟨0, c.Request.URL.Path, some fi⟩),
             Effect.stat ⟨0, c.Request.URL.Path, some fi⟩,
             Effect.serveContent c.Request.URL.Path fi.ModTime
               ⟨0, c.Request.URL.Path, some fi⟩,
             Effect.close ⟨0, c.Request.URL.Path, some fi⟩], none⟩ ∧
      nextCalls (staticHandler dir Join next c).effects = 0) ∧
    (∀ fi fi2, dir.Open c.Request.URL.Path = some (some fi) → fi.IsDir = true →
      HasSuffix c.Request.URL.Path "/" = true →
      dir.Open (Join c.Request.URL.Path indexFile) = some (some fi2) → fi2.IsDir = false →
      staticHandler dir Join next c =
        ⟨c, [Effect.open c.Request.URL.Path (some ⟨0, c.Request.URL.Path, some fi⟩),
             Effect.stat ⟨0, c.Request.URL.Path, some fi⟩,
             Effect.open (Join c.Request.URL.Path indexFile)
               (some ⟨1, Join c.Request.URL.Path indexFile, some fi2⟩),
             Effect.stat ⟨1, Join c.Request.URL.Path indexFile, some fi2⟩,
             Effect.serveContent (Join c.Request.URL.Path indexFile) fi2.ModTime
               ⟨1, Join c.Request.URL.Path indexFile, some fi2⟩,
             Effect.close ⟨1, Join c.Request.URL.Path indexFile, some fi2⟩,
             Effect.close ⟨0, c.Request.URL.Path, some fi⟩], none⟩ ∧
      nextCalls (staticHandler dir Join next c).effects = 0) := by
  have hnot : ¬ (c.Request.Method ≠ "GET" ∧ c.Request.Method ≠ "HEAD") := by
    rcases hm with h | h <;> simp [h]
  constructor
  · intro fi h1 hdir
    simp [staticHandler, hnot, h1, hdir, Outcome.after, Outcome.defer, nextCalls]
  · intro fi fi2 h1 hdir hsuf h2 hdir2
    simp [staticHandler, hnot, h1, h2, hdir, hdir2, hsuf, Outcome.after, Outcome.defer,
      nextCalls]

/-- Witness of C2: `GET /assets/` serves `/assets/index.html`. -/
theorem staticHandler_serves_file_witness :
    staticHandler exampleDir joinName noop (mkContext "GET" "/assets/" "" "") =
      ⟨mkContext "GET" "/assets/" "" "",
        [Effect.open "/assets/" (some ⟨0, "/assets/", some ⟨true, 7⟩⟩),
         Effect.stat ⟨0, "/assets/", some ⟨true, 7⟩⟩,
         Effect.open "/assets/index.html" (some ⟨1, "/assets/index.html", some ⟨false, 42⟩⟩),
         Effect.stat ⟨1, "/assets/index.html", some ⟨false, 42⟩⟩,
         Effect.serveContent "/assets/index.html" 42
           ⟨1, "/assets/index.html", some ⟨false, 42⟩⟩,
         Effect.close ⟨1, "/assets/index.html", some ⟨false, 42⟩⟩,
         Effect.close ⟨0, "/assets/", some ⟨true, 7⟩⟩], none⟩ :=
  ((staticHandler_serves_file exampleDir joinName noop (mkContext "GET" "/assets/" "" "")
    (Or.inl rfl)).2 ⟨true, 7⟩ ⟨false, 42⟩ (by decide) rfl (by decide) (by decide) rfl).1

/-- C3: for a GET or HEAD request whose URL path opens and stats as a directory
and does not end in "/", `staticHandler` answers with `http.Redirect` to the URL
path followed by "/" with status 302 (Found), closes the handle, never invokes
`next` and makes no second `Open`. -/
theorem staticHandler_redirects_directory (dir : Dir) (Join : String → String → String)
    (next : HandlerFunc) (c : Context) (fi : FileInfo)
    (hm : c.Request.Method = "GET" ∨ c.Request.Method = "HEAD")
    (hopen : dir.Open c.Request.URL.Path = some (some fi))
    (hdir : fi.IsDir = true)
    (hsuf : HasSuffix c.Request.URL.Path "/" = false) :
    staticHandler dir Join next c =
      ⟨c, [Effect.open c.Request.URL.Path (some ⟨0, c.Request.URL.Path, some fi⟩),
           Effect.stat ⟨0, c.Request.URL.Path, some fi⟩,
           Effect.redirect (c.Request.URL.Path ++ "/") 302,
           Effect.close ⟨0, c.Request.URL.Path, some fi⟩], none⟩ ∧
    nextCalls (staticHandler dir Join next c).effects = 0 ∧
    openAttempts (staticHandler dir Join next c).effects = [c.Request.URL.Path] := by
  have hnot : ¬ (c.Request.Method ≠ "GET" ∧ c.Request.Method ≠ "HEAD") := by
    rcases hm with h | h <;> simp [h]
  simp [staticHandler, hnot, hopen, hdir, hsuf, Outcome.after, Outcome.defer, nextCalls,
    openAttempts, StatusFound]

/-- Witness of C3: `GET /assets` is redirected to `/assets/`. -/
theorem staticHandler_redirects_directory_witness :
    staticHandler exampleDir joinName noop (mkContext "GET" "/assets" "" "") =
      ⟨mkContext "GET" "/assets" "" "",
        [Effect.open "/assets" (some ⟨0, "/assets", some ⟨true, 7⟩⟩),
         Effect.stat ⟨0, "/assets", some ⟨true, 7⟩⟩,
         Effect.redirect ("/assets" ++ "/") 302,
         Effect.close ⟨0, "/assets", some ⟨true, 7⟩⟩], none⟩ :=
  (staticHandler_redirects_directory exampleDir joinName noop (mkContext "GET" "/assets" "" "")
    ⟨true, 7⟩ (Or.inl rfl) (by decide) rfl (by decide)).1

/-- C9: on every exit path of `staticHandler` (fallthrough to `next`, also
when `next` panics; redirect; serve) the handles it closed are exactly the
handles it opened, in reverse order; the handles it opened are distinct, so
each of them is closed exactly once; and every `Close` is on a handle that is
open at that point, none being left open at the return. -/
theorem staticHandler_closes_every_handle (dir : Dir) (Join : String → String → String)
    (next : HandlerFunc) (c : Context) :
    closed (staticHandler dir Join next c).effects =
      (opened (staticHandler dir Join next c).effects).reverse ∧
    (opened (staticHandler dir Join next c).effects).Nodup ∧
    (∀ f ∈ opened (staticHandler dir Join next c).effects,
      (closed (staticHandler dir Join next c).effects).count f = 1) ∧
    heldAfter [] (staticHandler dir Join next c).effects = some [] := by
  by_cases hm : c.Request.Method ≠ "GET" ∧ c.Request.Method ≠ "HEAD"
  · simp [staticHandler, hm, call, opened, closed, heldAfter]
  · cases h1 : dir.Open c.Request.URL.Path with
    | none => simp [staticHandler, hm, h1, call, Outcome.after, opened, closed, heldAfter]
    | some st =>
      cases st with
      | none =>
        simp [staticHandler, hm, h1, call, Outcome.after, Outcome.defer, opened, closed,
          heldAfter]
      | some fi =>
        cases hdir : fi.IsDir with
        | false =>
          simp [staticHandler, hm, h1, hdir, call, Outcome.after, Outcome.defer, opened,
            closed, heldAfter]
        | true =>
          cases hsuf : HasSuffix c.Request.URL.Path "/" with
          | false =>
            simp [staticHandler, hm, h1, hdir, hsuf, call, Outcome.after, Outcome.defer,
              opened, closed, heldAfter]
          | true =>
            cases h2 : dir.Open (Join c.Request.URL.Path indexFile) with
            | none =>
              simp [staticHandler, hm, h1, h2, hdir, hsuf, call, Outcome.after,
                Outcome.defer, opened, closed, heldAfter]
            | some st2 =>
              cases st2 with
              | none =>
                simp [staticHandler, hm, h1, h2, hdir, hsuf, call, Outcome.after,
                  Outcome.defer, opened, closed, heldAfter, List.count_cons]
              | some fi2 =>
                cases hdir2 : fi2.IsDir <;>
                simp [staticHandler, hm, h1, h2, hdir, hdir2, hsuf, call, Outcome.after,
                  Outcome.defer, opened, closed, heldAfter, List.count_cons]

/-! ## Recovery: C4 -/

/-- C4 (the failing input): when the downstream handler does `panic(nil)` and
`recover()` returns nil (go directive below 1.21), `recoverHandler` ends the
panic and returns normally, but the guard `err != nil` is false: it writes
neither the panic log nor the 500, so no response is written at all. -/
theorem recoverHandler_swallows_nil_panic (c : Context) :
    recoverHandler (panicking PanicValue.nil) c = ⟨c, [Effect.next c []], none⟩ ∧
    responseWrites (recoverHandler (panicking PanicValue.nil) c).effects = [] := by
  constructor
  · rfl
  · rfl

/-- For a panic whose value is not nil: when the downstream handler panics with
`v` without a write to the response behind it, `recoverHandler next` returns
normally (no panic leaves it), having invoked `next` once, logged `v`, and made
exactly one response write: `http.Error` with the status text
"Internal Server Error" and status 500. -/
theorem recoverHandler_non_nil_panic_gives_500 (next : HandlerFunc) (c : Context)
    (v : PanicValue)
    (hpanic : (next c).panicked = some v)
    (hvalue : v ≠ PanicValue.nil)
    (hquiet : responseWrites (next c).effects = []) :
    (recoverHandler next c).panicked = none ∧
    (recoverHandler next c).c = (next c).c ∧
    (recoverHandler next c).effects =
      [Effect.next c (next c).effects, Effect.logPanic v,
        Effect.httpError "Internal Server Error" 500] ∧
    responseWrites (recoverHandler next c).effects =
      [Effect.httpError "Internal Server Error" 500] := by
  have hq : List.filter Effect.isResponseWrite (flatten (next c).effects) = [] := hquiet
  simp [recoverHandler, recovered, call, hpanic, hvalue, responseWrites, flatten,
    flattenEffect, hq, Effect.isResponseWrite, StatusText, StatusInternalServerError]

/-- The non-nil case on a handler that panics at once with "boom". -/
theorem recoverHandler_non_nil_panic_gives_500_example :
    (recoverHandler (panicking (PanicValue.value "boom")) (mkContext "GET" "/" "" "")).effects =
      [Effect.next (mkContext "GET" "/" "" "")
          (panicking (PanicValue.value "boom") (mkContext "GET" "/" "" "")).effects,
        Effect.logPanic (PanicValue.value "boom"),
        Effect.httpError "Internal Server Error" 500] :=
  (recoverHandler_non_nil_panic_gives_500 (panicking (PanicValue.value "boom"))
    (mkContext "GET" "/" "" "") (PanicValue.value "boom") rfl (by decide) rfl).2.2.1

/-! ## Form parsing: C5, C6 -/

/-- C5 (counterexample): on the body `a=1&a=2&b=` the context that reaches
`next` has an entry for `b`, so "a -> 1 and no entry for b" fails. -/
theorem parseFormHandler_keeps_empty_field :
    ¬ ((parseFormHandler noop formExample).c.Params "a" = some (Value.string "1") ∧
       (parseFormHandler noop formExample).c.Params "b" = none) := by
  intro h
  have hb : (parseFormHandler noop formExample).c.Params "b" = some (Value.string "") := rfl
  rw [hb] at h
  exact Option.noConfusion h.2

/-- C5 (amended): a field whose first value is empty is stored like any other,
under the empty string; on a POST with the URL-encoded body `a=1&a=2&b=`,
whatever the initial `Params`, `next` is invoked on `Params` with a -> "1" and
b -> "". -/
theorem parseFormHandler_stores_empty_value :
    (∀ (next : HandlerFunc) (c : Context) (k : String) (vs : List String),
      lookupMap c.Request.ParseForm.PostForm k = some ("" :: vs) →
      ∃ c2 : Context,
        (parseFormHandler next c).effects =
          [Effect.println c.Request.ParseForm.PostForm, Effect.next c2 (next c2).effects] ∧
        c2.Params k = some (Value.string "")) ∧
    (∀ (next : HandlerFunc) (u : URL) (p : Params) (t : Int),
      ∃ c2 : Context,
        (parseFormHandler next
            ⟨⟨"POST", u, "application/x-www-form-urlencoded", "a=1&a=2&b=", none⟩, p, t⟩).effects =
          [Effect.println (some ((GoMap.empty.set "a" ["1", "2"]).set "b" [""])),
           Effect.next c2 (next c2).effects] ∧
        c2.Params "a" = some (Value.string "1") ∧
        c2.Params "b" = some (Value.string "")) := by
  constructor
  · intro next c k vs hk
    refine ⟨formContext c, by rw [parseFormHandler_eq], ?_⟩
    rw [formContext_params, hk]; rfl
  · intro next u p t
    refine ⟨formContext ⟨⟨"POST", u, "application/x-www-form-urlencoded", "a=1&a=2&b=", none⟩,
      p, t⟩, ?_, ?_, ?_⟩
    · rw [parseFormHandler_eq]; rfl
    · rw [formContext_params]; rfl
    · rw [formContext_params]; rfl

/-- C6: `parseFormHandler next` prints the parsed form and then invokes `next`
exactly once (whatever `ParseForm` made of the body), on a context `c2` whose
request is the parsed request and whose `Params` hold, for every field `k` of
the parsed POST form with values `v :: vs`, the first value `v`, and are
unchanged at every key that is not a field of the form (or has no value); it
ends as `next` ended. -/
theorem parseFormHandler_stores_first_values (next : HandlerFunc) (c : Context) :
    ∃ c2 : Context,
      parseFormHandler next c =
        ⟨(next c2).c,
         [Effect.println c.Request.ParseForm.PostForm, Effect.next c2 (next c2).effects],
         (next c2).panicked⟩ ∧
      nextCalls (parseFormHandler next c).effects = 1 ∧
      c2.Request = c.Request.ParseForm ∧
      (∀ k v vs, lookupMap c.Request.ParseForm.PostForm k = some (v :: vs) →
        c2.Params k = some (Value.string v)) ∧
      (∀ k, lookupMap c.Request.ParseForm.PostForm k = none ∨
          lookupMap c.Request.ParseForm.PostForm k = some [] →
        c2.Params k = c.Params k) := by
  refine ⟨formContext c, parseFormHandler_eq next c, ?_, formContext_request c, ?_, ?_⟩
  · rw [parseFormHandler_eq]; rfl
  · intro k v vs hk
    rw [formContext_params, hk]; rfl
  · intro k hk
    rw [formContext_params]
    rcases hk with hk | hk <;> rw [hk] <;> rfl

/-- Witness of C6: on the body `a=%zz&b=2`, which `url.ParseQuery` reports as
malformed, `next` is still invoked, once, with `b` stored. -/
theorem parseFormHandler_stores_first_values_witness :
    (ParseQuery "a=%zz&b=2".toList).2 = true ∧
    ∃ c2 : Context,
      (parseFormHandler noop brokenFormExample).effects =
        [Effect.println brokenFormExample.Request.ParseForm.PostForm,
         Effect.next c2 (noop c2).effects] ∧
      c2.Params "b" = some (Value.string "2") ∧
      c2.Params "a" = brokenFormExample.Params "a" := by
  refine ⟨by decide, ?_⟩
  obtain ⟨c2, h1, _, _, h4, h5⟩ := parseFormHandler_stores_first_values noop brokenFormExample
  exact ⟨c2, by rw [h1], h4 "b" "2" [] (by decide), h5 "a" (Or.inl (by decide))⟩

/-! ## JSON body: C7, C8 -/

/-- C7: when `Decode` leaves a non-nil `m` with `len(m) > 0`,
`parseJsonBodyHandler` invokes `next` once on a context whose `Params` hold
`m[k]` at every key `k` of `m` (whatever was there before) and are unchanged at
every other key. -/
theorem parseJsonBodyHandler_copies_object (Decode : String → Decoded) (next : HandlerFunc)
    (c : Context) (m : GoMap Value)
    (hm : (Decode c.Request.Body).m = some m) (hlen : 0 < m.len) :
    ∃ c2 : Context,
      parseJsonBodyHandler Decode next c =
        ⟨(next c2).c, [Effect.next c2 (next c2).effects], (next c2).panicked⟩ ∧
      (∀ k v, m.get? k = some v → c2.Params k = some v) ∧
      (∀ k, m.get? k = none → c2.Params k = c.Params k) := by
  have hpar : ∀ k, (jsonContext Decode c).Params k =
      match (m.get? k).bind some with
      | some v => some v
      | none => c.Params k := by
    intro k
    have h := (foldl_store some storeEntry (fun _ _ => rfl) m.entries m.nodup
      { c with Request := { c.Request with Body := (Decode c.Request.Body).rest } }).2.2 k
    simpa [jsonContext, hm, lenMap, rangeMap, hlen, GoMap.get?] using h
  refine ⟨jsonContext Decode c, parseJsonBodyHandler_eq Decode next c, ?_, ?_⟩
  · intro k v hk
    rw [hpar, hk]; rfl
  · intro k hk
    rw [hpar, hk]; rfl

/-- Witness of C7: the object with `x` and `y` of the specification. -/
theorem parseJsonBodyHandler_copies_object_witness :
    ∃ c2 : Context,
      parseJsonBodyHandler exampleDecode noop
          (mkContext "POST" "/api" "application/json" "\x7b\"x\": 1, \"y\": \"s\"\x7d") =
        ⟨(noop c2).c, [Effect.next c2 (noop c2).effects], (noop c2).panicked⟩ ∧
      c2.Params "x" = some (Value.number 1) ∧
      c2.Params "y" = some (Value.string "s") ∧
      c2.Params "z" = none := by
  obtain ⟨c2, h1, h2, h3⟩ := parseJsonBodyHandler_copies_object exampleDecode noop
    (mkContext "POST" "/api" "application/json" "\x7b\"x\": 1, \"y\": \"s\"\x7d")
    ⟨[("x", Value.number 1), ("y", Value.string "s")], by decide⟩ rfl (by decide)
  exact ⟨c2, h1, h2 "x" _ rfl, h2 "y" _ rfl, h3 "z" rfl⟩

/-- C8: when `Decode` does not leave a non-empty map `m` (it failed before
storing anything, the body was empty, or the object was empty),
`parseJsonBodyHandler` still invokes `next` exactly once, on the context it
received with only the body read: `Params` are the ones it received. -/
theorem parseJsonBodyHandler_tolerates_bad_body (Decode : String → Decoded)
    (next : HandlerFunc) (c : Context)
    (hbad : ¬ ∃ m, (Decode c.Request.Body).m = some m ∧ 0 < m.len) :
    ∃ c2 : Context,
      parseJsonBodyHandler Decode next c =
        ⟨(next c2).c, [Effect.next c2 (next c2).effects], (next c2).panicked⟩ ∧
      nextCalls (parseJsonBodyHandler Decode next c).effects = 1 ∧
      c2.Params = c.Params ∧
      c2 = { c with Request := { c.Request with Body := (Decode c.Request.Body).rest } } := by
  have hlen : ¬ 0 < lenMap (Decode c.Request.Body).m := by
    intro h
    cases hm : (Decode c.Request.Body).m with
    | none => rw [hm] at h; exact absurd h (by simp [lenMap])
    | some m => rw [hm] at h; exact hbad ⟨m, hm, h⟩
  have hctx : jsonContext Decode c =
      { c with Request := { c.Request with Body := (Decode c.Request.Body).rest } } := by
    simp [jsonContext, hlen]
  refine ⟨jsonContext Decode c, parseJsonBodyHandler_eq Decode next c, ?_, ?_, hctx⟩
  · rw [parseJsonBodyHandler_eq]; rfl
  · rw [hctx]

/-- Witness of C8: the malformed body of the specification. -/
theorem parseJsonBodyHandler_tolerates_bad_body_witness :
    ∃ c2 : Context,
      parseJsonBodyHandler exampleDecode noop
          (mkContext "POST" "/api" "application/json" "\x7bbad json") =
        ⟨(noop c2).c, [Effect.next c2 (noop c2).effects], (noop c2).panicked⟩ ∧
      nextCalls (parseJsonBodyHandler exampleDecode noop
          (mkContext "POST" "/api" "application/json" "\x7bbad json")).effects = 1 ∧
      c2.Params = (mkContext "POST" "/api" "application/json" "\x7bbad json").Params := by
  obtain ⟨c2, h1, h2, h3, _⟩ := parseJsonBodyHandler_tolerates_bad_body exampleDecode noop
    (mkContext "POST" "/api" "application/json" "\x7bbad json")
    (by rintro ⟨m, hm, _⟩; exact Option.noConfusion hm)
  exact ⟨c2, h1, h2, h3⟩

/-! ## Logging around recovery: C10 -/

/-- C10: `logHandler (recoverHandler h)` never panics; it invokes
`recoverHandler h` once, which invokes `h` once (on the context received) and
recovers if `h` panicked (logging and answering 500 unless the value of the
panic is nil); then, as its last action and the only one of its own,
it emits one log record with the method and the URL of the request (as `h`
left them) and the time elapsed.  In the sequence of primitive actions the
record comes after everything `h` did and after the panic log and the 500
write of the recovery. -/
theorem logHandler_recoverHandler_logs_last (h : HandlerFunc) (c : Context) :
    (logHandler (recoverHandler h) c).panicked = none ∧
    (logHandler (recoverHandler h) c).effects =
      [Effect.next c ([Effect.next c (h c).effects] ++ recovery (h c).panicked),
        Effect.logRequest (h c).c.Request.Method (h c).c.Request.URL.String
          ((h c).c.now - c.now)] ∧
    nextCalls (logHandler (recoverHandler h) c).effects = 1 ∧
    nextCalls ([Effect.next c (h c).effects] ++ recovery (h c).panicked) = 1 ∧
    flatten (logHandler (recoverHandler h) c).effects =
      flatten (h c).effects ++ recovery (h c).panicked ++
        [Effect.logRequest (h c).c.Request.Method (h c).c.Request.URL.String
          ((h c).c.now - c.now)] := by
  cases hp : (h c).panicked with
  | none =>
    simp [logHandler, recoverHandler, recovered, call, hp, recovery, nextCalls, flatten,
      flattenEffect]
  | some v =>
    cases v with
    | nil =>
      simp [logHandler, recoverHandler, recovered, call, hp, recovery, nextCalls, flatten,
        flattenEffect]
    | value text =>
      simp [logHandler, recoverHandler, recovered, call, hp, recovery, nextCalls, flatten,
        flattenEffect, StatusText, StatusInternalServerError]

end GolangWeb
